import Mathlib

/-!
# Zenith Digital Life Planner — verification of the storage and utility modules

A shallow embedding of the planner's storage module (`Storage` in the
source) and date/calculation utilities (`Utils` in `src/js/utils.js`),
together with theorems settling the specification claims.

Modelling conventions:

* Calendar dates (`YYYY-MM-DD` strings in the source) are modelled as
  integer day numbers in the proleptic Gregorian calendar, counted from
  `0000-01-01` (day 0).  Lexicographic order on ISO date strings agrees
  with numeric order on day numbers, and "one calendar day before"
  becomes subtraction by 1.
* JavaScript `Date` values carry a calendar day plus a time of day; the
  structure `JSDate` records both.  `Date.prototype.getDay` (0 =
  Sunday … 6 = Saturday) is `getDay` below, anchored so that day number
  719528 (1970-01-01) is a Thursday, matching the real calendar.
* `Math.round` (round half towards `+∞`) coincides with Mathlib's
  `round` on `ℚ`; the source's floating-point arithmetic is modelled
  exactly over `ℚ`.
-/

namespace Zenith

/-! ## Calendar arithmetic underlying the JavaScript `Date` object -/

/-- Gregorian leap-year test. -/
def isLeap (y : Nat) : Bool :=
  (y % 4 == 0 && y % 100 != 0) || y % 400 == 0

/-- Number of days of month `m` (0-based, as in JavaScript) of year `y`. -/
def daysInMonth (y : Nat) (m : Nat) : Nat :=
  match m with
  | 0 => 31
  | 1 => if isLeap y then 29 else 28
  | 2 => 31
  | 3 => 30
  | 4 => 31
  | 5 => 30
  | 6 => 31
  | 7 => 31
  | 8 => 30
  | 9 => 31
  | 10 => 30
  | _ => 31

/-- Number of leap years among `0, 1, …, y - 1` (year 0 is a leap year). -/
def leapsBefore (y : Nat) : Nat :=
  if y = 0 then 0 else (y - 1) / 4 - (y - 1) / 100 + (y - 1) / 400 + 1

/-- Days from `0000-01-01` up to the start of year `y`. -/
def daysBeforeYear (y : Nat) : Nat :=
  365 * y + leapsBefore y

/-- Days from the start of year `y` up to the start of its month `m`
(0-based); for `m = 12` this is the full length of year `y`, matching
JavaScript's normalisation of `new Date(y, 12, d)`. -/
def daysBeforeMonth (y m : Nat) : Nat :=
  ((List.range m).map (daysInMonth y)).sum

/-- Day number of `new Date(y, m, d)`.  As in JavaScript, `d` may be
`≤ 0` or exceed the month length and simply offsets from day 1 of the
month. -/
def dayNumber (y m : Nat) (d : Int) : Int :=
  (daysBeforeYear y : Int) + (daysBeforeMonth y m : Int) + d - 1

/-- `Date.prototype.getDay`: 0 = Sunday, 1 = Monday, …, 6 = Saturday. -/
def getDay (n : Int) : Int :=
  (n + 6) % 7

/-- A JavaScript `Date`: a calendar day plus a time of day
(milliseconds after local midnight). -/
structure JSDate where
  day : Int
  msOfDay : Nat
deriving DecidableEq

/-! ## `Utils.getWeekStart` (src/js/utils.js, lines 113–120) -/

/-- `Utils.getWeekStart`: `setDate(getDate() - day + (day === 0 ? -6 : 1))`
followed by `setHours(0, 0, 0, 0)`. -/
def getWeekStart (date : JSDate) : JSDate :=
  { day := date.day - getDay date.day + (if getDay date.day = 0 then -6 else 1)
    msOfDay := 0 }

/-! ## `Utils.getCalendarDays` (src/js/utils.js, lines 143–190)

A grid cell records its date (day number) and the `isOtherMonth` flag;
the display-only fields of the source (`dateStr`, `dayNum`, `isToday`)
are presentation of the same date and are omitted.  The source builds
the 42-cell list with three loops (previous-month cells, current-month
cells, next-month filler); each loop is one list below. -/

/-- A cell of the month-view calendar grid. -/
structure CalDay where
  date : Int
  isOtherMonth : Bool
deriving DecidableEq

/-- The `startDay` variable of `Utils.getCalendarDays`:
`firstDay.getDay() - 1`, with `-1` (a Sunday first) wrapped to `6`. -/
def calendarStartDay (year month : Nat) : Nat :=
  if getDay (dayNumber year month 1) = 0 then 6
  else (getDay (dayNumber year month 1) - 1).toNat

/-- First loop of `Utils.getCalendarDays`: cells `new Date(year, month, -i)`
for `i = startDay - 1, …, 0`, flagged `isOtherMonth`. -/
def calendarPrevCells (year month : Nat) : List CalDay :=
  (List.range (calendarStartDay year month)).reverse.map
    (fun (i : Nat) => ⟨dayNumber year month (-(i : Int)), true⟩)

/-- Second loop of `Utils.getCalendarDays`: cells `new Date(year, month, i)`
for `i = 1, …, lastDay.getDate()`. -/
def calendarMonthCells (year month : Nat) : List CalDay :=
  (List.range (daysInMonth year month)).map
    (fun (i : Nat) => ⟨dayNumber year month ((i : Int) + 1), false⟩)

/-- Third loop of `Utils.getCalendarDays`: `remaining = 42 - days.length`
cells `new Date(year, month + 1, i)` for `i = 1, …, remaining`, flagged
`isOtherMonth`. -/
def calendarNextCells (year month : Nat) : List CalDay :=
  (List.range
      (42 - ((calendarPrevCells year month).length +
        (calendarMonthCells year month).length))).map
    (fun (i : Nat) => ⟨dayNumber year (month + 1) ((i : Int) + 1), true⟩)

/-- `Utils.getCalendarDays year month` (0-based month). -/
def getCalendarDays (year month : Nat) : List CalDay :=
  calendarPrevCells year month ++ calendarMonthCells year month ++
    calendarNextCells year month

/-! ## `Utils.calculateCapacityPercent` / `Utils.getCapacityStatus`
(src/js/utils.js, lines 437–451) -/

/-- `Utils.calculateCapacityPercent`: `capacityMinutes = capacity * 60`,
then `Math.round((planned / capacityMinutes) * 100)`. -/
def calculateCapacityPercent (planned capacity : Nat) : Int :=
  round ((planned : ℚ) / ((capacity : ℚ) * 60) * 100)

/-- `Utils.getCapacityStatus`: the CSS status class for a capacity
percentage (the empty string is the "none" status). -/
def getCapacityStatus (percent : Int) : String :=
  if percent ≤ 80 then "" else if percent ≤ 100 then "warning" else "danger"

/-! ## Storage: task methods (src/unnamed/part_000, lines 147–221)

Tasks are stored as JavaScript objects.  `completedAt` is an ISO
timestamp or `null` (`Option String`); `date` and `duration` are
properties that may be absent from the object (`none` = absent).
`generateId()` and `new Date().toISOString()` are impure; they are
passed in as the `genId` / `now` parameters. -/

/-- A stored task object. -/
structure Task where
  id : String
  createdAt : String
  completed : Bool
  completedAt : Option String
  date : Option String := none
  duration : Option Nat := none
deriving DecidableEq

/-- The all-absent task object, used only as the out-of-range default
for `List.getD`. -/
def defaultTask : Task :=
  { id := "", createdAt := "", completed := false, completedAt := none }

/-- A partial task object, as passed to `Storage.addTask` (the `task`
argument) or `Storage.updateTask` (the `updates` argument).  A `some`
field is present in the object and overrides via the spread `{... , ...}`;
`none` means the property is absent. -/
structure TaskInput where
  id : Option String := none
  createdAt : Option String := none
  completed : Option Bool := none
  completedAt : Option (Option String) := none
  date : Option String := none
  duration : Option Nat := none
deriving DecidableEq

/-- `Storage.addTask`: builds `{id: generateId(), createdAt: now,
completed: false, completedAt: null, ...task}` — each default applies
only when the partial omits the field — pushes it and returns it. -/
def addTask (tasks : List Task) (t : TaskInput) (genId now : String) :
    Task × List Task :=
  let newTask : Task :=
    { id := t.id.getD genId
      createdAt := t.createdAt.getD now
      completed := t.completed.getD false
      completedAt := t.completedAt.getD none
      date := t.date
      duration := t.duration }
  (newTask, tasks ++ [newTask])

/-- The spread merge `{...t, ...u}` of an update object over a task. -/
def mergeTask (t : Task) (u : TaskInput) : Task :=
  { id := u.id.getD t.id
    createdAt := u.createdAt.getD t.createdAt
    completed := u.completed.getD t.completed
    completedAt := u.completedAt.getD t.completedAt
    date := u.date.or t.date
    duration := u.duration.or t.duration }

/-- `Storage.updateTask`: finds the first task with the given id
(`findIndex`), replaces it by the spread merge, then stamps
`completedAt := now` when the update's `completed` is truthy and the
merged task's `completedAt` is still null; stores and returns the
updated task, or returns `null` leaving the list untouched.  (The
`!completedAt` truthiness test is modelled as `= none`; stored
timestamps are never the empty string.) -/
def updateTask (tasks : List Task) (i : String) (u : TaskInput)
    (now : String) : Option Task × List Task :=
  match tasks with
  | [] => (none, [])
  | t :: ts =>
    if t.id = i then
      let m := mergeTask t u
      let m := if u.completed.getD false = true ∧ m.completedAt = none
        then { m with completedAt := some now } else m
      (some m, m :: ts)
    else
      let r := updateTask ts i u now
      (r.1, t :: r.2)

/-- An `updates` object whose only field is `completed` (the toggle
patch of claim C6). -/
def completedOnly (b : Bool) : TaskInput :=
  { completed := some b }

/-- A sequence of `updateTask` calls that each toggle `completed` of
task `i`; `ops` lists the `(completed, now)` argument pairs. -/
def toggleCompletedSeq (tasks : List Task) (i : String)
    (ops : List (Bool × String)) : List Task :=
  ops.foldl (fun ts op => (updateTask ts i (completedOnly op.1) op.2).2) tasks

/-! ## Storage: habit methods (src/unnamed/part_000, lines 227–324)

Completed dates (`YYYY-MM-DD` strings in the source) are day numbers
(`Int`); lexicographic order on equal-length ISO strings is numeric
order on day numbers, so `[...].sort()` is sorting by `≤` and
"`prevDate` = one day before `currentDate`" is subtraction by 1.
`today` (read from the clock in the source) is injected as a
parameter; `yesterday = today - 1`. -/

/-- The `for` loop of `Storage.calculateStreak`: walk the remaining
descending dates, incrementing while each equals the previous counted
date minus one, breaking at the first gap. -/
def streakLoop : List Int → Int → Nat → Nat
  | [], _, streak => streak
  | d :: rest, currentDate, streak =>
    if d = currentDate - 1 then streakLoop rest (currentDate - 1) (streak + 1)
    else streak

/-- The number of consecutive predecessors the walk consumes
(`streakLoop rest c s = s + streakCount rest c`); accumulator-free
reformulation of `streakLoop` used by the proofs. -/
def streakCount : List Int → Int → Nat
  | [], _ => 0
  | d :: rest, c => if d = c - 1 then 1 + streakCount rest (c - 1) else 0

/-- `Storage.calculateStreak`: sort the completed dates descending; if
the most recent is neither today nor yesterday return 0, else walk
backward counting consecutive days. -/
def calculateStreak (completedDates : List Int) (today : Int) : Nat :=
  match (completedDates.insertionSort (· ≤ ·)).reverse with
  | [] => 0
  | d0 :: rest =>
    if d0 ≠ today ∧ d0 ≠ today - 1 then 0
    else streakLoop rest d0 1

/-- A stored habit object. -/
structure Habit where
  id : String
  createdAt : String
  completedDates : List Int
  currentStreak : Nat
  longestStreak : Nat
  name : String := ""
  frequency : String := "daily"
deriving DecidableEq

/-- The all-default habit, used only as the out-of-range default for
`List.getD`. -/
def defaultHabit : Habit :=
  { id := "", createdAt := "", completedDates := [], currentStreak := 0
    longestStreak := 0 }

/-- A partial habit object passed to `Storage.addHabit`; `some` fields
override the defaults via the spread. -/
structure HabitInput where
  id : Option String := none
  createdAt : Option String := none
  completedDates : Option (List Int) := none
  currentStreak : Option Nat := none
  longestStreak : Option Nat := none
  name : Option String := none
  frequency : Option String := none
deriving DecidableEq

/-- `Storage.addHabit`: `{id: generateId(), createdAt: now,
completedDates: [], currentStreak: 0, longestStreak: 0, ...habit}`,
pushed and returned. -/
def addHabit (habits : List Habit) (h : HabitInput) (genId now : String) :
    Habit × List Habit :=
  let newHabit : Habit :=
    { id := h.id.getD genId
      createdAt := h.createdAt.getD now
      completedDates := h.completedDates.getD []
      currentStreak := h.currentStreak.getD 0
      longestStreak := h.longestStreak.getD 0
      name := h.name.getD ""
      frequency := h.frequency.getD "daily" }
  (newHabit, habits ++ [newHabit])

/-- The mutation `Storage.toggleHabitCompletion` applies to the found
habit: remove the date if present (`splice` at `indexOf`, i.e. first
occurrence) else push it, recompute `currentStreak`, and raise
`longestStreak` to `max(longestStreak, currentStreak)`. -/
def toggleHabit (h : Habit) (dateStr today : Int) : Habit :=
  let completedDates :=
    if dateStr ∈ h.completedDates then h.completedDates.erase dateStr
    else h.completedDates ++ [dateStr]
  let currentStreak := calculateStreak completedDates today
  { h with
    completedDates := completedDates
    currentStreak := currentStreak
    longestStreak := max h.longestStreak currentStreak }

/-- `Storage.toggleHabitCompletion`: find the habit by id, apply
`toggleHabit` in place, and return it (`undefined`/`none` when no habit
matches). -/
def toggleHabitCompletion (habits : List Habit) (habitId : String)
    (dateStr today : Int) : Option Habit × List Habit :=
  match habits with
  | [] => (none, [])
  | h :: hs =>
    if h.id = habitId then
      let h2 := toggleHabit h dateStr today
      (some h2, h2 :: hs)
    else
      let r := toggleHabitCompletion hs habitId dateStr today
      (r.1, h :: r.2)

/-- A sequence of `toggleHabitCompletion` calls; `ops` lists the
`(habitId, dateStr, today)` argument triples. -/
def toggleSeq (habits : List Habit) (ops : List (String × Int × Int)) :
    List Habit :=
  ops.foldl (fun hs op => (toggleHabitCompletion hs op.1 op.2.1 op.2.2).2)
    habits

/-! ## Storage: habit part of `getProductivityStats`
(src/unnamed/part_000, lines 583–638) -/

/-- The inner `while (current <= end)` day-counting loop of
`Storage.getProductivityStats`: the number of days in the inclusive
range. -/
def daysInRangeCount (startDate endDate : Int) : Nat :=
  (endDate - startDate + 1).toNat

/-- `habitCompletions` of `Storage.getProductivityStats`: over all
habits, the completed dates falling in the inclusive range (duplicates
each counted, frequency ignored). -/
def habitCompletionsInRange (habits : List Habit) (startDate endDate : Int) :
    Nat :=
  habits.foldl
    (fun acc h =>
      acc + h.completedDates.countP
        (fun d => decide (startDate ≤ d ∧ d ≤ endDate)))
    0

/-- `habitPossible` of `Storage.getProductivityStats`: the day-count
loop runs once per habit, whatever the habit's frequency. -/
def habitPossibleCount (habits : List Habit) (startDate endDate : Int) :
    Nat :=
  habits.foldl (fun acc _ => acc + daysInRangeCount startDate endDate) 0

/-- The `habitCompletionRate` field of `Storage.getProductivityStats`:
`habitPossible > 0 ? Math.round((habitCompletions / habitPossible) * 100) : 0`. -/
def habitCompletionRate (habits : List Habit) (startDate endDate : Int) :
    Int :=
  if 0 < habitPossibleCount habits startDate endDate then
    round ((habitCompletionsInRange habits startDate endDate : ℚ) /
      (habitPossibleCount habits startDate endDate : ℚ) * 100)
  else 0

/-! ## Storage: the Document Store, export and import
(src/unnamed/part_000, lines 6–18 and 644–674)

The store holds nine collections, one per storage key.  `Storage.get`
returns `null` both for an absent key and for a stored `null`, so a
collection is observationally an `Option V` (`V` an arbitrary type of
JSON values).  `Storage.set` on an unknown key is dropped: the nine
known keys are the whole observable state. -/

/-- The Document Store: one field per `Storage.KEYS` entry. -/
structure Store (V : Type) where
  user : Option V
  tasks : Option V
  habits : Option V
  goals : Option V
  timeblocks : Option V
  dailyData : Option V
  weeklyObjectives : Option V
  settings : Option V
  theme : Option V
deriving DecidableEq

/-- `Storage.KEYS` as the list of (property name, storage key) pairs,
in object order. -/
def KEYS : List (String × String) :=
  [("USER", "zenith_user"), ("TASKS", "zenith_tasks"),
   ("HABITS", "zenith_habits"), ("GOALS", "zenith_goals"),
   ("TIME_BLOCKS", "zenith_timeblocks"), ("DAILY_DATA", "zenith_daily_data"),
   ("WEEKLY_OBJECTIVES", "zenith_weekly_objectives"),
   ("SETTINGS", "zenith_settings"), ("THEME", "zenith_theme")]

/-- `Storage.get`: the collection stored under a storage key (`none`
for an unknown key or an absent collection). -/
def storageGet {V : Type} (s : Store V) (key : String) : Option V :=
  if key = "zenith_user" then s.user
  else if key = "zenith_tasks" then s.tasks
  else if key = "zenith_habits" then s.habits
  else if key = "zenith_goals" then s.goals
  else if key = "zenith_timeblocks" then s.timeblocks
  else if key = "zenith_daily_data" then s.dailyData
  else if key = "zenith_weekly_objectives" then s.weeklyObjectives
  else if key = "zenith_settings" then s.settings
  else if key = "zenith_theme" then s.theme
  else none

/-- `Storage.set` restricted to the observable keys (a JSON `null`
value round-trips through `JSON.stringify`/`parse` as `none`). -/
def storageSet {V : Type} (s : Store V) (key : String) (v : Option V) :
    Store V :=
  if key = "zenith_user" then { s with user := v }
  else if key = "zenith_tasks" then { s with tasks := v }
  else if key = "zenith_habits" then { s with habits := v }
  else if key = "zenith_goals" then { s with goals := v }
  else if key = "zenith_timeblocks" then { s with timeblocks := v }
  else if key = "zenith_daily_data" then { s with dailyData := v }
  else if key = "zenith_weekly_objectives" then { s with weeklyObjectives := v }
  else if key = "zenith_settings" then { s with settings := v }
  else if key = "zenith_theme" then { s with theme := v }
  else s

/-- `Storage.exportData`, as the parsed JSON object (field list):
`Object.keys(this.KEYS).forEach(key => { data[key] = this.get(this.KEYS[key]) })`
— the field names are the `KEYS` property names `USER`, `TASKS`, …. -/
def exportData {V : Type} (s : Store V) : List (String × Option V) :=
  KEYS.map (fun kv => (kv.1, storageGet s kv.2))

/-- `Storage.importData` on an already-parsed object:
`Object.keys(data).forEach(key => { if (Object.values(this.KEYS).includes(key)) this.set(key, data[key]) })`
— only fields named by a storage key `zenith_…` are written. -/
def importData {V : Type} (s : Store V) (data : List (String × Option V)) :
    Store V :=
  data.foldl
    (fun st kv =>
      if (KEYS.map Prod.snd).contains kv.1 then storageSet st kv.1 kv.2
      else st)
    s

/-- A sample populated store over `V := Nat`. -/
def sampleStore : Store Nat :=
  ⟨some 1, some 2, some 3, some 4, some 5, some 6, some 7, some 8, some 9⟩

/-- The empty store over `V := Nat`. -/
def emptyStore : Store Nat :=
  ⟨none, none, none, none, none, none, none, none, none⟩

/-! ## Calendar-grid lemmas -/

theorem daysInMonth_bounds (y m : Nat) :
    28 ≤ daysInMonth y m ∧ daysInMonth y m ≤ 31 := by
  unfold daysInMonth
  split <;> first | omega | (split_ifs <;> omega)

theorem calendarStartDay_le (y m : Nat) : calendarStartDay y m ≤ 6 := by
  unfold calendarStartDay getDay
  split_ifs <;> omega

theorem getDay_calendar_monday (y m : Nat) :
    getDay (dayNumber y m 1 - calendarStartDay y m) = 1 := by
  unfold calendarStartDay getDay dayNumber
  split_ifs <;> omega

theorem daysBeforeMonth_succ (y m : Nat) :
    daysBeforeMonth y (m + 1) = daysBeforeMonth y m + daysInMonth y m := by
  simp [daysBeforeMonth, List.range_succ]

theorem length_calendarPrevCells (y m : Nat) :
    (calendarPrevCells y m).length = calendarStartDay y m := by
  simp [calendarPrevCells]

theorem length_calendarMonthCells (y m : Nat) :
    (calendarMonthCells y m).length = daysInMonth y m := by
  simp [calendarMonthCells]

theorem length_calendarNextCells (y m : Nat) :
    (calendarNextCells y m).length =
      42 - (calendarStartDay y m + daysInMonth y m) := by
  simp [calendarNextCells, length_calendarPrevCells, length_calendarMonthCells]

theorem length_getCalendarDays (y m : Nat) :
    (getCalendarDays y m).length = 42 := by
  have h1 := calendarStartDay_le y m
  have h2 := (daysInMonth_bounds y m).2
  simp only [getCalendarDays, List.length_append, length_calendarPrevCells,
    length_calendarMonthCells, length_calendarNextCells]
  omega

theorem calendarPrevCells_getElem (y m i : Nat) (hi : i < calendarStartDay y m) :
    (calendarPrevCells y m)[i]? =
      some ⟨dayNumber y m 1 - calendarStartDay y m + i, true⟩ := by
  rw [calendarPrevCells, List.getElem?_map,
    List.getElem?_reverse (by simpa using hi), List.length_range,
    List.getElem?_range (by omega)]
  simp [CalDay.mk.injEq, dayNumber] <;> omega

theorem calendarMonthCells_getElem (y m i : Nat) (hi : i < daysInMonth y m) :
    (calendarMonthCells y m)[i]? = some ⟨dayNumber y m 1 + i, false⟩ := by
  rw [calendarMonthCells, List.getElem?_map, List.getElem?_range hi]
  simp [CalDay.mk.injEq, dayNumber] <;> omega

theorem calendarNextCells_getElem (y m i : Nat)
    (hi : i < 42 - (calendarStartDay y m + daysInMonth y m)) :
    (calendarNextCells y m)[i]? =
      some ⟨dayNumber y m 1 + daysInMonth y m + i, true⟩ := by
  rw [calendarNextCells, List.getElem?_map, length_calendarPrevCells,
    length_calendarMonthCells, List.getElem?_range hi]
  simp [CalDay.mk.injEq, dayNumber, daysBeforeMonth_succ] <;> omega

theorem getCalendarDays_getElem (y m i : Nat) (hi : i < 42) :
    (getCalendarDays y m)[i]? =
      some ⟨dayNumber y m 1 - calendarStartDay y m + i,
        decide (i < calendarStartDay y m ∨
          calendarStartDay y m + daysInMonth y m ≤ i)⟩ := by
  have hs6 := calendarStartDay_le y m
  have hLb := daysInMonth_bounds y m
  rw [getCalendarDays, List.append_assoc]
  by_cases h1 : i < calendarStartDay y m
  · rw [List.getElem?_append_left (by rw [length_calendarPrevCells]; exact h1),
      calendarPrevCells_getElem y m i h1,
      show decide (i < calendarStartDay y m ∨
          calendarStartDay y m + daysInMonth y m ≤ i) = true by
        rw [decide_eq_true_eq]; omega]
  · rw [List.getElem?_append_right (by rw [length_calendarPrevCells]; omega),
      length_calendarPrevCells]
    by_cases h2 : i < calendarStartDay y m + daysInMonth y m
    · rw [List.getElem?_append_left
        (by rw [length_calendarMonthCells]; omega),
        calendarMonthCells_getElem y m _ (by omega),
        show decide (i < calendarStartDay y m ∨
            calendarStartDay y m + daysInMonth y m ≤ i) = false by
          rw [decide_eq_false_iff_not]; omega]
      simp [CalDay.mk.injEq] <;> omega
    · rw [List.getElem?_append_right
        (by rw [length_calendarMonthCells]; omega),
        length_calendarMonthCells,
        calendarNextCells_getElem y m _ (by omega),
        show decide (i < calendarStartDay y m ∨
            calendarStartDay y m + daysInMonth y m ≤ i) = true by
          rw [decide_eq_true_eq]; omega]
      simp [CalDay.mk.injEq] <;> omega

/-! ## Claim C4 -/

/-- Claim C4: for every year `y` and 0-based month `m < 12`,
`getCalendarDays y m` has exactly 42 cells forming consecutive calendar
dates; the first cell is a Monday, so the 7th, 14th, …, 42nd cells
(0-based indices `7k + 6`) are Sundays; and a cell is flagged
`isOtherMonth` exactly when it lies among the leading previous-month
cells or the trailing next-month cells. -/
theorem getCalendarDays_spec (year month : Nat) (hm : month < 12) :
    (getCalendarDays year month).length = 42 ∧
    (∀ i : Nat, i < 42 →
      ((getCalendarDays year month).getD i ⟨0, false⟩).date =
        ((getCalendarDays year month).getD 0 ⟨0, false⟩).date + i) ∧
    getDay ((getCalendarDays year month).getD 0 ⟨0, false⟩).date = 1 ∧
    (∀ k : Nat, k < 6 →
      getDay ((getCalendarDays year month).getD (7 * k + 6) ⟨0, false⟩).date
        = 0) ∧
    (∀ i : Nat, i < 42 →
      (((getCalendarDays year month).getD i ⟨0, false⟩).isOtherMonth = true ↔
        (i < calendarStartDay year month ∨
          calendarStartDay year month + daysInMonth year month ≤ i))) := by
  have hmon := getDay_calendar_monday year month
  refine ⟨length_getCalendarDays year month, ?_, ?_, ?_, ?_⟩
  · intro i hi
    rw [List.getD_eq_getElem?_getD, getCalendarDays_getElem year month i hi,
      List.getD_eq_getElem?_getD, getCalendarDays_getElem year month 0 (by omega)]
    simp only [Option.getD_some]
    omega
  · rw [List.getD_eq_getElem?_getD, getCalendarDays_getElem year month 0 (by omega)]
    simpa using hmon
  · intro k hk
    rw [List.getD_eq_getElem?_getD,
      getCalendarDays_getElem year month (7 * k + 6) (by omega)]
    simp only [Option.getD_some]
    unfold getDay at *
    omega
  · intro i hi
    rw [List.getD_eq_getElem?_getD, getCalendarDays_getElem year month i hi]
    simp [decide_eq_true_eq]

/-- Witness for C4 at January 2026. -/
theorem getCalendarDays_spec_witness :
    (getCalendarDays 2026 0).length = 42 :=
  (getCalendarDays_spec 2026 0 (by decide)).1

/-! ## Task lemmas -/

theorem updateTask_of_not_found (ts : List Task) (i : String) (u : TaskInput)
    (now : String) (h : ∀ t ∈ ts, t.id ≠ i) :
    updateTask ts i u now = (none, ts) := by
  induction ts with
  | nil => rfl
  | cons t ts ih =>
    have ht : ¬t.id = i := h t (by simp)
    simp only [updateTask, if_neg ht, ih (fun x hx => h x (by simp [hx]))]

theorem updateTask_found (ts : List Task) (i : String) (b : Bool)
    (now : String) (t : Task)
    (hf : ts.find? (fun a => a.id == i) = some t) :
    (updateTask ts i (completedOnly b) now).1 =
      some { t with
        completed := b
        completedAt := if b = true ∧ t.completedAt = none then some now
          else t.completedAt } := by
  induction ts with
  | nil => simp at hf
  | cons a ts ih =>
    by_cases h : a.id = i
    · rw [List.find?_cons_of_pos _ (by simpa using h)] at hf
      obtain rfl : a = t := by simpa using hf
      simp only [updateTask, if_pos h, mergeTask, completedOnly,
        Option.getD_none, Option.getD_some, Option.or_none]
      split_ifs <;> rfl
    · rw [List.find?_cons_of_neg _ (by simpa using h)] at hf
      simpa only [updateTask, if_neg h] using ih hf

theorem updateTask_getD_completedAt (ts : List Task) (i : String)
    (u : TaskInput) (now : String) (hu : u.completedAt = none) (j : Nat)
    (x : String) (hx : (ts.getD j defaultTask).completedAt = some x) :
    ((updateTask ts i u now).2.getD j defaultTask).completedAt = some x := by
  induction ts generalizing j with
  | nil => simpa [updateTask] using hx
  | cons t ts ih =>
    by_cases h : t.id = i
    · cases j with
      | zero =>
        simp only [List.getD_cons_zero] at hx
        simp [updateTask, h, mergeTask, hu, hx]
      | succ j =>
        simp only [List.getD_cons_succ] at hx
        simpa [updateTask, h] using hx
    · cases j with
      | zero =>
        simp only [List.getD_cons_zero] at hx
        simpa [updateTask, h] using hx
      | succ j =>
        simp only [List.getD_cons_succ] at hx
        simpa [updateTask, h] using ih j hx

theorem toggleCompletedSeq_completedAt (tasks : List Task) (i : String)
    (ops : List (Bool × String)) (j : Nat) (x : String)
    (hx : (tasks.getD j defaultTask).completedAt = some x) :
    ((toggleCompletedSeq tasks i ops).getD j defaultTask).completedAt
      = some x := by
  induction ops generalizing tasks with
  | nil => exact hx
  | cons op ops ih =>
    simp only [toggleCompletedSeq, List.foldl_cons] at *
    exact ih _ (updateTask_getD_completedAt _ _ _ _ rfl j x hx)

/-! ## Claim C10 -/

/-- Claim C10: `addTask` stores and returns the record obtained by
laying the caller's partial over the defaults `{id: generateId(),
createdAt: now, completed: false, completedAt: null}`; each default
applies only when the partial omits that field, so a partial supplying
`completed`, `completedAt`, `createdAt` or `id` overrides the default
verbatim. -/
theorem addTask_spec (tasks : List Task) (t : TaskInput)
    (genId now : String) :
    (addTask tasks t genId now).2 = tasks ++ [(addTask tasks t genId now).1] ∧
    (addTask tasks t genId now).1.id = t.id.getD genId ∧
    (addTask tasks t genId now).1.createdAt = t.createdAt.getD now ∧
    (addTask tasks t genId now).1.completed = t.completed.getD false ∧
    (addTask tasks t genId now).1.completedAt = t.completedAt.getD none :=
  ⟨rfl, rfl, rfl, rfl, rfl⟩

/-! ## Claim C8 -/

/-- Claim C8: `updateTask` on an id not present in the collection
returns the not-found sentinel `null` and leaves the stored collection
completely unchanged. -/
theorem updateTask_not_found_spec (tasks : List Task) (i : String)
    (u : TaskInput) (now : String) (h : ∀ t ∈ tasks, t.id ≠ i) :
    updateTask tasks i u now = (none, tasks) ∧
    (updateTask tasks i u now).2.length = tasks.length := by
  have he := updateTask_of_not_found tasks i u now h
  exact ⟨he, by rw [he]⟩

/-- Witness for C8: updating id `"b"` in a collection holding only id
`"a"`. -/
theorem updateTask_not_found_spec_witness :
    updateTask [{ defaultTask with id := "a" }] "b" (completedOnly true) "t1"
        = (none, [{ defaultTask with id := "a" }]) ∧
      (updateTask [{ defaultTask with id := "a" }] "b" (completedOnly true)
        "t1").2.length = [{ defaultTask with id := "a" }].length :=
  updateTask_not_found_spec _ _ _ _ (by decide)

/-! ## Claim C6 -/

/-- Claim C6: for a patch whose only field is `completed`: the updated
task is the found task with `completed := b` and `completedAt` stamped
to `now` exactly when `b` is true and `completedAt` was still null (a
second completion keeps the original stamp, `completed := false` never
clears it); consequently, across any sequence of such toggles a
once-set `completedAt` keeps its value. -/
theorem updateTask_completed_toggle_spec (tasks : List Task) (i : String)
    (b : Bool) (now : String) (t : Task) (x : String)
    (ops : List (Bool × String)) (j : Nat)
    (hf : tasks.find? (fun a => a.id == i) = some t) :
    ((updateTask tasks i (completedOnly b) now).1 =
      some { t with
        completed := b
        completedAt := if b = true ∧ t.completedAt = none then some now
          else t.completedAt }) ∧
    (t.completedAt = none → b = true →
      ∃ t', (updateTask tasks i (completedOnly b) now).1 = some t' ∧
        t'.completedAt = some now) ∧
    (∀ y : String, t.completedAt = some y →
      ∃ t', (updateTask tasks i (completedOnly b) now).1 = some t' ∧
        t'.completedAt = some y) ∧
    ((tasks.getD j defaultTask).completedAt = some x →
      ((toggleCompletedSeq tasks i ops).getD j defaultTask).completedAt
        = some x) := by
  have h1 := updateTask_found tasks i b now t hf
  refine ⟨h1, ?_, ?_, toggleCompletedSeq_completedAt tasks i ops j x⟩
  · intro hn hb
    exact ⟨_, h1, by simp [hn, hb]⟩
  · intro y hy
    exact ⟨_, h1, by simp [hy]⟩

/-- Witness for C6: first completion of a fresh task stamps `now`. -/
theorem updateTask_completed_toggle_spec_witness :
    (updateTask [{ defaultTask with id := "a" }] "a" (completedOnly true)
        "t1").1 =
      some { { defaultTask with id := "a" } with
        completed := true
        completedAt := if true = true ∧
            ({ defaultTask with id := "a" } : Task).completedAt = none
          then some "t1"
          else ({ defaultTask with id := "a" } : Task).completedAt } :=
  (updateTask_completed_toggle_spec [{ defaultTask with id := "a" }] "a"
    true "t1" { defaultTask with id := "a" } "" [] 0 (by decide)).1

/-! ## Anchor checks for the date model -/

example : getDay (dayNumber 1970 0 1) = 4 := by decide

example : getDay (dayNumber 2000 0 1) = 6 := by decide

example : calculateCapacityPercent 300 5 = 100 := by
  norm_num [calculateCapacityPercent, round_eq]

example : getCapacityStatus 81 = "warning" := by decide

/-! ## Streak lemmas -/

theorem streakLoop_eq_add (rest : List Int) :
    ∀ (c : Int) (s : Nat), streakLoop rest c s = s + streakCount rest c := by
  induction rest with
  | nil => intro c s; rfl
  | cons d rest ih =>
    intro c s
    simp only [streakLoop, streakCount]
    split_ifs with h
    · rw [ih]; omega
    · omega

theorem streakCount_run (rest : List Int) :
    ∀ c : Int, (c :: rest).Pairwise (· > ·) →
      (∀ j : Nat, 1 ≤ j → j ≤ streakCount rest c → c - (j : Int) ∈ rest) ∧
      c - ((streakCount rest c : Int) + 1) ∉ rest := by
  induction rest with
  | nil =>
    intro c _
    refine ⟨fun j h1 h2 => ?_, by simp⟩
    simp only [streakCount] at h2
    omega
  | cons d rest ih =>
    intro c hp
    rw [List.pairwise_cons] at hp
    obtain ⟨hc, hp'⟩ := hp
    by_cases hd : d = c - 1
    · subst hd
      obtain ⟨ihm, ihn⟩ := ih (c - 1) hp'
      have hsc : streakCount ((c - 1) :: rest) c =
          1 + streakCount rest (c - 1) := by
        simp [streakCount]
      refine ⟨fun j h1 h2 => ?_, fun hmem => ?_⟩
      · rw [hsc] at h2
        rcases Nat.eq_or_lt_of_le h1 with h | h
        · rw [List.mem_cons]
          left
          omega
        · have hmem2 := ihm (j - 1) (by omega) (by omega)
          rw [List.mem_cons]
          right
          have hcast : c - 1 - ((j - 1 : Nat) : Int) = c - (j : Int) := by
            omega
          rwa [hcast] at hmem2
      · rw [hsc] at hmem
        rcases List.mem_cons.mp hmem with h | h
        · omega
        · apply ihn
          have hcast :
              c - (((1 + streakCount rest (c - 1) : Nat) : Int) + 1) =
                c - 1 - ((streakCount rest (c - 1) : Int) + 1) := by
            push_cast
            ring
          rwa [hcast] at h
    · refine ⟨fun j h1 h2 => ?_, fun hmem => ?_⟩
      · simp only [streakCount, if_neg hd] at h2
        exact absurd h1 (by omega)
      · simp only [streakCount, if_neg hd] at hmem
        have hdc : c > d := hc d (by simp)
        have hlt : ∀ a ∈ rest, d > a := (List.pairwise_cons.mp hp').1
        rcases List.mem_cons.mp hmem with h | h
        · omega
        · have := hlt _ h
          omega

theorem sortedDesc_structure (dates : List Int) (m : Int) (hm : m ∈ dates)
    (hmax : ∀ x ∈ dates, x ≤ m) :
    ∃ rest, (dates.insertionSort (· ≤ ·)).reverse = m :: rest ∧
      List.Perm (m :: rest) dates ∧ (m :: rest).Pairwise (· ≥ ·) := by
  have hperm : List.Perm (dates.insertionSort (· ≤ ·)).reverse dates :=
    (List.reverse_perm _).trans (List.perm_insertionSort _ _)
  have hsorted : (dates.insertionSort (· ≤ ·)).reverse.Pairwise (· ≥ ·) := by
    rw [List.pairwise_reverse]
    exact (List.sorted_insertionSort (· ≤ ·) dates).imp (fun h => h)
  cases hs : (dates.insertionSort (· ≤ ·)).reverse with
  | nil =>
    rw [hs] at hperm
    rw [hperm.symm.eq_nil] at hm
    simp at hm
  | cons d0 rest =>
    rw [hs] at hperm hsorted
    have hd0m : d0 = m := by
      have h1 : d0 ∈ dates := hperm.mem_iff.mp (by simp)
      have h2 : m ∈ d0 :: rest := hperm.mem_iff.mpr hm
      have h3 : d0 ≤ m := hmax d0 h1
      rcases List.mem_cons.mp h2 with h | h
      · omega
      · have h4 : d0 ≥ m := (List.pairwise_cons.mp hsorted).1 m h
        omega
    subst hd0m
    exact ⟨rest, rfl, hperm, hsorted⟩

theorem calculateStreak_stale (dates : List Int) (today m : Int)
    (hm : m ∈ dates) (hmax : ∀ x ∈ dates, x ≤ m)
    (h : m ≠ today ∧ m ≠ today - 1) :
    calculateStreak dates today = 0 := by
  obtain ⟨rest, hs, _, _⟩ := sortedDesc_structure dates m hm hmax
  unfold calculateStreak
  rw [hs]
  exact if_pos h

theorem calculateStreak_run (dates : List Int) (today m : Int)
    (hnd : dates.Nodup) (hm : m ∈ dates) (hmax : ∀ x ∈ dates, x ≤ m)
    (hrecent : m = today ∨ m = today - 1) :
    1 ≤ calculateStreak dates today ∧
    (∀ j : Nat, j < calculateStreak dates today → m - (j : Int) ∈ dates) ∧
    m - (calculateStreak dates today : Int) ∉ dates := by
  obtain ⟨rest, hs, hperm, hsorted⟩ := sortedDesc_structure dates m hm hmax
  have hnd2 : (m :: rest).Nodup := hperm.nodup_iff.mpr hnd
  have hgt : (m :: rest).Pairwise (· > ·) :=
    (hsorted.and hnd2).imp (fun hab => lt_of_le_of_ne hab.1 hab.2.symm)
  have hcalc : calculateStreak dates today = streakLoop rest m 1 := by
    unfold calculateStreak
    rw [hs]
    show (if m ≠ today ∧ m ≠ today - 1 then 0 else streakLoop rest m 1) =
      streakLoop rest m 1
    rw [if_neg (by tauto)]
  obtain ⟨hmem, hnot⟩ := streakCount_run rest m hgt
  rw [hcalc, streakLoop_eq_add]
  refine ⟨by omega, fun j hj => ?_, fun hcon => ?_⟩
  · rcases Nat.eq_zero_or_pos j with rfl | hpos
    · simpa using hm
    · have hin := hmem j (by omega) (by omega)
      exact hperm.mem_iff.mp (List.mem_cons_of_mem _ hin)
  · have hin : m - ((1 + streakCount rest m : Nat) : Int) ∈ m :: rest :=
      hperm.mem_iff.mpr hcon
    rcases List.mem_cons.mp hin with h | h
    · omega
    · apply hnot
      have hcast : m - ((1 + streakCount rest m : Nat) : Int) =
          m - ((streakCount rest m : Int) + 1) := by
        push_cast
        ring
      rwa [hcast] at h

/-! ## Claim C2 -/

/-- Claim C2: for every duplicate-free list of dates and injected
`today`: `calculateStreak` returns 0 when the list is empty or its
most recent date `m` is neither today nor yesterday; otherwise it
returns the length of the maximal run of consecutive calendar days
ending at `m` (at least 1; every day `m, m-1, …` within the result is
completed and the next earlier day is not).  The quoted examples hold,
and the function is a pure function of the dates and the injected
today. -/
theorem calculateStreak_spec (dates : List Int) (today m : Int)
    (hnd : dates.Nodup) :
    (dates = [] → calculateStreak dates today = 0) ∧
    (m ∈ dates → (∀ x ∈ dates, x ≤ m) →
      ((m ≠ today ∧ m ≠ today - 1) → calculateStreak dates today = 0) ∧
      ((m = today ∨ m = today - 1) →
        1 ≤ calculateStreak dates today ∧
        (∀ j : Nat, j < calculateStreak dates today →
          m - (j : Int) ∈ dates) ∧
        m - (calculateStreak dates today : Int) ∉ dates)) ∧
    calculateStreak [today, today - 1, today - 2] today = 3 ∧
    calculateStreak [today - 3, today - 4] today = 0 ∧
    calculateStreak [today] today = 1 := by
  refine ⟨fun he => by subst he; rfl,
    fun hm hmax =>
      ⟨fun h => calculateStreak_stale dates today m hm hmax h,
       fun hr => calculateStreak_run dates today m hnd hm hmax hr⟩,
    ?_, ?_, ?_⟩
  · obtain ⟨h1, h2, h3⟩ := calculateStreak_run [today, today - 1, today - 2]
      today today (by simp <;> omega) (by simp)
      (by intro x hx; simp at hx; omega) (Or.inl rfl)
    have hle : calculateStreak [today, today - 1, today - 2] today ≤ 3 := by
      by_contra hgt
      push_neg at hgt
      have := h2 3 (by omega)
      simp only [List.mem_cons, List.not_mem_nil, or_false] at this
      omega
    simp only [List.mem_cons, List.not_mem_nil, or_false] at h3
    omega
  · exact calculateStreak_stale [today - 3, today - 4] today (today - 3)
      (by simp) (by intro x hx; simp at hx; omega)
      ⟨by omega, by omega⟩
  · obtain ⟨h1, h2, h3⟩ := calculateStreak_run [today] today today
      (by simp) (by simp) (by intro x hx; simp at hx; omega) (Or.inl rfl)
    have hle : calculateStreak [today] today ≤ 1 := by
      by_contra hgt
      push_neg at hgt
      have := h2 1 (by omega)
      simp only [List.mem_cons, List.not_mem_nil, or_false] at this
      omega
    simp only [List.mem_cons, List.not_mem_nil, or_false] at h3
    omega

/-- Witness for C2 at `dates = [5, 4]`, `today = 5`, `m = 5`: the
three-day example instance. -/
theorem calculateStreak_spec_witness :
    calculateStreak [(5 : Int), 5 - 1, 5 - 2] 5 = 3 :=
  (calculateStreak_spec [5, 4] 5 5 (by decide)).2.2.1

/-! ## Habit lemmas -/

theorem toggleHabit_longestStreak (h : Habit) (d t : Int) :
    (toggleHabit h d t).longestStreak =
      max h.longestStreak (toggleHabit h d t).currentStreak := rfl

theorem toggleHabitCompletion_found (habits : List Habit) (i : String)
    (d t : Int) (h : Habit)
    (hf : habits.find? (fun a => a.id == i) = some h) :
    (toggleHabitCompletion habits i d t).1 = some (toggleHabit h d t) := by
  induction habits with
  | nil => simp at hf
  | cons a hs ih =>
    by_cases ha : a.id = i
    · rw [List.find?_cons_of_pos _ (by simpa using ha)] at hf
      obtain rfl : a = h := by simpa using hf
      simp [toggleHabitCompletion, ha]
    · rw [List.find?_cons_of_neg _ (by simpa using ha)] at hf
      simpa only [toggleHabitCompletion, if_neg ha] using ih hf

theorem toggleHabitCompletion_invariant (habits : List Habit) (i : String)
    (d t : Int)
    (hinv : ∀ a ∈ habits, a.currentStreak ≤ a.longestStreak) :
    ∀ a ∈ (toggleHabitCompletion habits i d t).2,
      a.currentStreak ≤ a.longestStreak := by
  induction habits with
  | nil => simp [toggleHabitCompletion]
  | cons h hs ih =>
    by_cases hh : h.id = i
    · intro a ha
      simp only [toggleHabitCompletion, if_pos hh, List.mem_cons] at ha
      rcases ha with rfl | ha
      · exact le_max_right _ _
      · exact hinv a (by simp [ha])
    · intro a ha
      simp only [toggleHabitCompletion, if_neg hh, List.mem_cons] at ha
      rcases ha with rfl | ha
      · exact hinv a (by simp)
      · exact ih (fun b hb => hinv b (by simp [hb])) a ha

theorem toggleHabitCompletion_getD_longest (habits : List Habit)
    (i : String) (d t : Int) (j : Nat) :
    (habits.getD j defaultHabit).longestStreak ≤
      ((toggleHabitCompletion habits i d t).2.getD j
        defaultHabit).longestStreak := by
  induction habits generalizing j with
  | nil => simp [toggleHabitCompletion]
  | cons h hs ih =>
    by_cases hh : h.id = i
    · cases j with
      | zero =>
        simp only [toggleHabitCompletion, if_pos hh, List.getD_cons_zero]
        rw [toggleHabit_longestStreak]
        exact le_max_left _ _
      | succ j => simp [toggleHabitCompletion, hh]
    · cases j with
      | zero => simp [toggleHabitCompletion, hh]
      | succ j => simpa [toggleHabitCompletion, hh] using ih j

theorem toggleSeq_longest_mono (habits : List Habit)
    (ops : List (String × Int × Int)) (j : Nat) :
    (habits.getD j defaultHabit).longestStreak ≤
      ((toggleSeq habits ops).getD j defaultHabit).longestStreak := by
  induction ops generalizing habits with
  | nil => exact le_rfl
  | cons op ops ih =>
    simp only [toggleSeq, List.foldl_cons]
    exact le_trans (toggleHabitCompletion_getD_longest habits op.1 op.2.1
      op.2.2 j) (ih _)

/-! ## Claim C3 -/

/-- Claim C3: after `toggleHabitCompletion` the toggled habit's
`longestStreak` equals `max` of its previous `longestStreak` and the
recomputed `currentStreak` (hence `longestStreak ≥ currentStreak` after
every mutation, and `addHabit` with a partial omitting the streak
fields initialises both to 0), and `longestStreak` never decreases
across any sequence of toggles. -/
theorem toggleHabitCompletion_spec (habits : List Habit) (habitId : String)
    (d today : Int) (h : Habit) (hi : HabitInput) (genId now : String)
    (ops : List (String × Int × Int)) (j : Nat) :
    (habits.find? (fun a => a.id == habitId) = some h →
      (toggleHabitCompletion habits habitId d today).1 =
        some (toggleHabit h d today)) ∧
    ((toggleHabit h d today).longestStreak =
      max h.longestStreak (toggleHabit h d today).currentStreak) ∧
    ((toggleHabit h d today).currentStreak ≤
      (toggleHabit h d today).longestStreak) ∧
    (h.longestStreak ≤ (toggleHabit h d today).longestStreak) ∧
    ((∀ a ∈ habits, a.currentStreak ≤ a.longestStreak) →
      ∀ a ∈ (toggleHabitCompletion habits habitId d today).2,
        a.currentStreak ≤ a.longestStreak) ∧
    (hi.currentStreak = none → hi.longestStreak = none →
      (addHabit habits hi genId now).1.currentStreak = 0 ∧
      (addHabit habits hi genId now).1.longestStreak = 0) ∧
    ((habits.getD j defaultHabit).longestStreak ≤
      ((toggleSeq habits ops).getD j defaultHabit).longestStreak) := by
  refine ⟨fun hf => toggleHabitCompletion_found habits habitId d today h hf,
    rfl, le_max_right _ _, le_max_left _ _,
    toggleHabitCompletion_invariant habits habitId d today,
    fun hc hl => ⟨by simp [addHabit, hc], by simp [addHabit, hl]⟩,
    toggleSeq_longest_mono habits ops j⟩

/-- Witness for C3: toggling a fresh habit on a concrete date. -/
theorem toggleHabitCompletion_spec_witness :
    (toggleHabitCompletion [{ defaultHabit with id := "h1" }] "h1" 5 5).1 =
      some (toggleHabit { defaultHabit with id := "h1" } 5 5) :=
  (toggleHabitCompletion_spec [{ defaultHabit with id := "h1" }] "h1" 5 5
    { defaultHabit with id := "h1" } {} "g" "t" [] 0).1 (by decide)

/-! ## Productivity-stats lemmas -/

theorem foldl_add_const {α : Type} (l : List α) (c : Nat) :
    ∀ a : Nat, l.foldl (fun acc _ => acc + c) a = a + l.length * c := by
  induction l with
  | nil => simp
  | cons x l ih =>
    intro a
    simp only [List.foldl_cons, List.length_cons, ih]
    ring

/-! ## Claim C7 -/

/-- Claim C7: `totalPossibleDays` is the number of habits times the
number of days in the inclusive range — the day loop runs once per
habit regardless of its frequency, so the rate is invariant under
changing every habit's frequency — the rate is
`round(completions / possible * 100)`, and 0 when `possible` is 0. -/
theorem habitCompletionRate_spec (habits : List Habit) (s e : Int)
    (f : String) :
    habitPossibleCount habits s e =
      habits.length * daysInRangeCount s e ∧
    (habitPossibleCount habits s e = 0 →
      habitCompletionRate habits s e = 0) ∧
    (0 < habitPossibleCount habits s e →
      habitCompletionRate habits s e =
        round ((habitCompletionsInRange habits s e : ℚ) /
          ((habits.length * daysInRangeCount s e : Nat) : ℚ) * 100)) ∧
    habitCompletionRate (habits.map fun h => { h with frequency := f }) s e
      = habitCompletionRate habits s e := by
  have hp : habitPossibleCount habits s e =
      habits.length * daysInRangeCount s e := by
    simpa using foldl_add_const habits (daysInRangeCount s e) 0
  refine ⟨hp, fun h0 => by simp [habitCompletionRate, h0], fun hpos => ?_, ?_⟩
  · rw [habitCompletionRate, if_pos hpos, hp]
  · simp [habitCompletionRate, habitPossibleCount, habitCompletionsInRange,
      List.foldl_map]

/-- Witness for C7: one habit with one completion over a 2-day range. -/
theorem habitCompletionRate_spec_witness :
    habitCompletionRate [{ defaultHabit with completedDates := [5] }] 5 6 =
      round (((habitCompletionsInRange
          [{ defaultHabit with completedDates := [5] }] 5 6 : Nat) : ℚ) /
        ((([{ defaultHabit with completedDates := [5] }] :
            List Habit).length * daysInRangeCount 5 6 : Nat) : ℚ) * 100) :=
  (habitCompletionRate_spec [{ defaultHabit with completedDates := [5] }]
    5 6 "daily").2.2.1 (by decide)

/-! ## Claim C1 -/

/-- Claim C1 (refuted — code bug): `exportData` emits its fields under
the `KEYS` property names (`USER`, `TASKS`, …), not the storage keys
(`zenith_user`, …), while `importData` only accepts fields named by a
storage key; importing an export therefore writes nothing at all — in
particular it cannot restore a non-empty export into an empty store. -/
theorem exportData_importData_mismatch (V : Type) (s t : Store V) :
    importData t (exportData s) = t ∧
    (exportData s).map Prod.fst =
      ["USER", "TASKS", "HABITS", "GOALS", "TIME_BLOCKS", "DAILY_DATA",
       "WEEKLY_OBJECTIVES", "SETTINGS", "THEME"] ∧
    "zenith_tasks" ∉ (exportData s).map Prod.fst ∧
    storageGet (importData emptyStore (exportData sampleStore)) "zenith_tasks"
      = none ∧
    storageGet sampleStore "zenith_tasks" = some 2 := by
  have hfst : (exportData s).map Prod.fst =
      ["USER", "TASKS", "HABITS", "GOALS", "TIME_BLOCKS", "DAILY_DATA",
       "WEEKLY_OBJECTIVES", "SETTINGS", "THEME"] := rfl
  refine ⟨?_, hfst, by rw [hfst]; decide, by decide, by decide⟩
  simp [importData, exportData, KEYS]

/-! ## Claim C5 -/

/-- Claim C5: for every date `D`, `getWeekStart D` is the Monday on or
before `D` with the time of day zeroed; a Sunday input maps to the
Monday six days prior; and `getWeekStart` is idempotent. -/
theorem getWeekStart_spec (d : JSDate) :
    getDay (getWeekStart d).day = 1 ∧
    (getWeekStart d).day ≤ d.day ∧
    d.day - (getWeekStart d).day < 7 ∧
    (getWeekStart d).msOfDay = 0 ∧
    (getDay d.day = 0 → (getWeekStart d).day = d.day - 6) ∧
    getWeekStart (getWeekStart d) = getWeekStart d := by
  obtain ⟨n, t⟩ := d
  refine ⟨?_, ?_, ?_, rfl, fun h => ?_, ?_⟩
  · simp only [getWeekStart, getDay]
    split_ifs <;> omega
  · simp only [getWeekStart, getDay]
    split_ifs <;> omega
  · simp only [getWeekStart, getDay]
    split_ifs <;> omega
  · simp only [getDay] at h
    simp only [getWeekStart, getDay]
    split_ifs <;> omega
  · simp only [getWeekStart, getDay, JSDate.mk.injEq]
    split_ifs <;> exact ⟨by omega, trivial⟩

/-- Witness for C5 at a concrete Sunday (`getDay 8 = 0`), checking the
Sunday clause of `getWeekStart_spec`. -/
theorem getWeekStart_spec_witness :
    (getWeekStart ⟨8, 123⟩).day = (8 : Int) - 6 :=
  (getWeekStart_spec ⟨8, 123⟩).2.2.2.2.1 (by decide)

/-! ## Claim C9 -/

/-- Claim C9: `calculateCapacityPercent p c` equals
`round (p / (c * 60) * 100)` for `c > 0` and is not clamped above 100
(`calculateCapacityPercent 400 5 = 133`), with the quoted boundary
values; `getCapacityStatus` returns the none status exactly on
percentages `≤ 80`, `"warning"` exactly on `80 < percent ≤ 100`, and
`"danger"` exactly on `percent > 100`. -/
theorem capacity_spec (p c : Nat) (hc : 0 < c) (q : Int) :
    calculateCapacityPercent p c = round ((p : ℚ) / ((c : ℚ) * 60) * 100) ∧
    calculateCapacityPercent 300 5 = 100 ∧
    calculateCapacityPercent 0 5 = 0 ∧
    calculateCapacityPercent 400 5 = 133 ∧
    (getCapacityStatus q = "" ↔ q ≤ 80) ∧
    (getCapacityStatus q = "warning" ↔ 80 < q ∧ q ≤ 100) ∧
    (getCapacityStatus q = "danger" ↔ 100 < q) := by
  have h1 : ("" : String) ≠ "warning" := by decide
  have h2 : ("" : String) ≠ "danger" := by decide
  have h3 : ("warning" : String) ≠ "danger" := by decide
  refine ⟨rfl, by norm_num [calculateCapacityPercent, round_eq],
    by norm_num [calculateCapacityPercent, round_eq],
    by norm_num [calculateCapacityPercent, round_eq], ?_, ?_, ?_⟩ <;>
    · unfold getCapacityStatus
      split_ifs <;> simp_all <;> omega

/-- Witness for C9 at `p = 300`, `c = 5`, `q = 81`. -/
theorem capacity_spec_witness :
    getCapacityStatus 81 = "warning" ↔ (80 : Int) < 81 ∧ (81 : Int) ≤ 100 :=
  (capacity_spec 300 5 (by decide) 81).2.2.2.2.2.1

end Zenith
